import Mathlib

/-!
Verification of the stellar-roadmap position / minimap projection subsystem.

The definitions below are shallow embeddings of the TypeScript source:
* `handleNodeDrag`, `handleEdgeDrag`, `resetPositions` and the `useState`
  initializer from `src/components/stellar-roadmap/PositionManager.tsx`;
* `calculateNodePositions` from `src/components/stellar-roadmap/utils.ts`;
* `calculateGlobalBounds`, `projectToCanvas`, the click-to-world mapping of
  `handleMinimapClick`, and `projectToMinimap` (with its `calculateBounds`)
  from `src/components/stellar-roadmap/Minimap.tsx`;
* the `project` closure of `render2D` in
  `src/components/stellar-roadmap/minimap/2d.tsx`;
* the `applyInertia` loops of the node / edge drag components.

JavaScript numbers are modelled by `JSNum` (a rational together with the IEEE
special values `Infinity`, `-Infinity` and `NaN`) where the special values can
actually arise (bounds folds over empty sets, divisions by a zero extent), and
by plain rationals elsewhere.  JS `Map`s are modelled by association lists in
insertion order.
-/

/-- A 3-component vector of rationals, the model of the
`[number, number, number]` position triples of the source. -/
structure Vec3 where
  x : ℚ
  y : ℚ
  z : ℚ
deriving DecidableEq, Repr

/-- Componentwise addition, as written inline in `handleNodeDrag` /
`handleEdgeDrag` (`pos[i] + delta[i]`). -/
def vadd (a b : Vec3) : Vec3 := ⟨a.x + b.x, a.y + b.y, a.z + b.z⟩

/-- Componentwise subtraction, as written inline in `handleNodeDrag`
(`newPosition[i] - oldPos[i]`). -/
def vsub (a b : Vec3) : Vec3 := ⟨a.x - b.x, a.y - b.y, a.z - b.z⟩

/-- The node-position store: a JS `Map<string, [number,number,number]>`
modelled as an association list in insertion order. -/
abbrev NodeMap : Type := List (String × Vec3)

/-- `Map.get`: the value stored at `id`, if any (first occurrence). -/
def mapGet : NodeMap → String → Option Vec3
  | [], _ => none
  | (k, v) :: rest, id => if k = id then some v else mapGet rest id

/-- `Map.set`: replace the entry for `id` in place if present, otherwise
append it at the end (JS insertion-order semantics). -/
def mapSet : NodeMap → String → Vec3 → NodeMap
  | [], id, v => [(id, v)]
  | (k, w) :: rest, id, v =>
      if k = id then (k, v) :: rest else (k, w) :: mapSet rest id v

/-- `handleNodeDrag` from `PositionManager.tsx` (lines 58-88), as the map
transformation applied by `setNodePositions`: in locked (group) mode a
missing `nodeId` returns `prev` unchanged, otherwise every entry is
translated by `delta = newPosition - oldPos`; in unlocked mode only the
entry for `nodeId` is set. -/
def handleNodeDrag (isLocked : Bool) (prev : NodeMap) (nodeId : String)
    (newPosition : Vec3) : NodeMap :=
  if isLocked then
    match mapGet prev nodeId with
    | none => prev
    | some oldPos =>
        let delta := vsub newPosition oldPos
        prev.map (fun e => (e.1, vadd e.2 delta))
  else
    mapSet prev nodeId newPosition

/-- `handleEdgeDrag` from `PositionManager.tsx` (lines 90-104): in locked
mode every entry is translated by `delta`; otherwise no state update is
issued at all. -/
def handleEdgeDrag (isLocked : Bool) (prev : NodeMap) (delta : Vec3) : NodeMap :=
  if isLocked then prev.map (fun e => (e.1, vadd e.2 delta)) else prev

/-- A flow node as consumed by the position code: an id and the externally
supplied 2D layout coordinate `node.position`. -/
structure FlowNode where
  id : String
  posX : ℚ
  posY : ℚ
deriving DecidableEq, Repr

/-- The `useState` initializer of `PositionManager.tsx` (lines 24-34): each
node is placed at `(node.position.x / 100 - 2, node.position.y / 100 + 2, 0)`. -/
def initialNodePositions (initialNodes : List FlowNode) : NodeMap :=
  initialNodes.map (fun node => (node.id, ⟨node.posX / 100 - 2, node.posY / 100 + 2, 0⟩))

/-- `resetPositions` from `PositionManager.tsx` (lines 110-121): builds a
fresh map from `initialNodes` with the same formula as the initializer,
ignoring the current (drag-mutated) positions entirely. -/
def resetPositions (initialNodes : List FlowNode) (_currentPositions : NodeMap) : NodeMap :=
  initialNodes.map (fun node => (node.id, ⟨node.posX / 100 - 2, node.posY / 100 + 2, 0⟩))

/-- `calculateNodePositions` from `utils.ts` (lines 26-35):
`(x / SCALE_FACTOR - OFFSET_X, y / SCALE_FACTOR + OFFSET_Y, 0)` with
`SCALE_FACTOR = 25`, `OFFSET_X = OFFSET_Y = 8`. -/
def calculateNodePositions (nodes : List FlowNode) : NodeMap :=
  nodes.map (fun node => (node.id, ⟨node.posX / 25 - 8, node.posY / 25 + 8, 0⟩))

-- Basic lemmas about the map model.

theorem mapGet_map_vadd (m : NodeMap) (d : Vec3) (id : String) :
    mapGet (m.map (fun e => (e.1, vadd e.2 d))) id
      = (mapGet m id).map (fun p => vadd p d) := by
  induction m with
  | nil => rfl
  | cons e rest ih =>
      obtain ⟨k, v⟩ := e
      by_cases hk : k = id
      · simp [mapGet, hk]
      · simpa [mapGet, hk] using ih

theorem mapSet_of_not_mem (m : NodeMap) (id : String) (v : Vec3)
    (h : mapGet m id = none) : mapSet m id v = m ++ [(id, v)] := by
  induction m with
  | nil => rfl
  | cons e rest ih =>
      obtain ⟨k, w⟩ := e
      by_cases hk : k = id
      · simp [mapGet, hk] at h
      · simp [mapGet, hk] at h
        simp [mapSet, hk, ih h]

theorem vadd_vsub_cancel (p q : Vec3) : vadd q (vsub p q) = p := by
  simp [vadd, vsub]

theorem vsub_vadd_vadd (p q d : Vec3) :
    vsub (vadd p d) (vadd q d) = vsub p q := by
  simp [vadd, vsub]

/-! ## JavaScript number model

The minimap code folds `Math.min` / `Math.max` starting from `±Infinity` and
divides by bounding-box extents that can be zero, so IEEE special values are
reachable.  `JSNum` models a JS number as either a finite rational or one of
`Infinity`, `-Infinity`, `NaN` (the sign of zero is irrelevant to every
computation below, so signed zeros are collapsed). -/

/-- A JavaScript number: finite (rational), `Infinity`, `-Infinity` or `NaN`. -/
inductive JSNum where
  | fin : ℚ → JSNum
  | posInf : JSNum
  | negInf : JSNum
  | nan : JSNum
deriving DecidableEq, Repr

/-- JS `+` on numbers. -/
def jadd : JSNum → JSNum → JSNum
  | .nan, _ => .nan
  | _, .nan => .nan
  | .fin a, .fin b => .fin (a + b)
  | .fin _, .posInf => .posInf
  | .fin _, .negInf => .negInf
  | .posInf, .fin _ => .posInf
  | .negInf, .fin _ => .negInf
  | .posInf, .posInf => .posInf
  | .negInf, .negInf => .negInf
  | .posInf, .negInf => .nan
  | .negInf, .posInf => .nan

/-- JS `-` on numbers. -/
def jsub : JSNum → JSNum → JSNum
  | .nan, _ => .nan
  | _, .nan => .nan
  | .fin a, .fin b => .fin (a - b)
  | .fin _, .posInf => .negInf
  | .fin _, .negInf => .posInf
  | .posInf, .fin _ => .posInf
  | .negInf, .fin _ => .negInf
  | .posInf, .posInf => .nan
  | .posInf, .negInf => .posInf
  | .negInf, .posInf => .negInf
  | .negInf, .negInf => .nan

/-- JS `*` on numbers (`0 * Infinity = NaN`). -/
def jmul : JSNum → JSNum → JSNum
  | .nan, _ => .nan
  | _, .nan => .nan
  | .fin a, .fin b => .fin (a * b)
  | .fin a, .posInf => if 0 < a then .posInf else if a < 0 then .negInf else .nan
  | .fin a, .negInf => if 0 < a then .negInf else if a < 0 then .posInf else .nan
  | .posInf, .fin b => if 0 < b then .posInf else if b < 0 then .negInf else .nan
  | .negInf, .fin b => if 0 < b then .negInf else if b < 0 then .posInf else .nan
  | .posInf, .posInf => .posInf
  | .posInf, .negInf => .negInf
  | .negInf, .posInf => .negInf
  | .negInf, .negInf => .posInf

/-- JS `/` on numbers (`x / 0 = ±Infinity` for `x ≠ 0`, `0 / 0 = NaN`,
`x / ±Infinity = 0`, `±Infinity / ±Infinity = NaN`). -/
def jdiv : JSNum → JSNum → JSNum
  | .nan, _ => .nan
  | _, .nan => .nan
  | .fin a, .fin b =>
      if b = 0 then (if 0 < a then .posInf else if a < 0 then .negInf else .nan)
      else .fin (a / b)
  | .fin _, .posInf => .fin 0
  | .fin _, .negInf => .fin 0
  | .posInf, .fin b => if b < 0 then .negInf else .posInf
  | .negInf, .fin b => if b < 0 then .posInf else .negInf
  | .posInf, _ => .nan
  | .negInf, _ => .nan

/-- JS `Math.min` (propagates `NaN`). -/
def jsMin : JSNum → JSNum → JSNum
  | .nan, _ => .nan
  | _, .nan => .nan
  | .negInf, _ => .negInf
  | _, .negInf => .negInf
  | .posInf, b => b
  | a, .posInf => a
  | .fin a, .fin b => .fin (min a b)

/-- JS `Math.max` (propagates `NaN`). -/
def jsMax : JSNum → JSNum → JSNum
  | .nan, _ => .nan
  | _, .nan => .nan
  | .posInf, _ => .posInf
  | _, .posInf => .posInf
  | .negInf, b => b
  | a, .negInf => a
  | .fin a, .fin b => .fin (max a b)

/-- The x/y bounding box accumulated by `calculateGlobalBounds` in
`Minimap.tsx` (and by the identical `reduce` in `render2D` of
`minimap/2d.tsx`). -/
structure GlobalBounds where
  minX : JSNum
  maxX : JSNum
  minY : JSNum
  maxY : JSNum
deriving DecidableEq, Repr

/-- `calculateGlobalBounds` from `Minimap.tsx` (lines 354-364): a `reduce`
with `Math.min` / `Math.max` starting from `{∞, -∞, ∞, -∞}`, over x and y
only. -/
def globalBoundsStep (acc : GlobalBounds) (pos : Vec3) : GlobalBounds :=
  { minX := jsMin acc.minX (.fin pos.x)
    maxX := jsMax acc.maxX (.fin pos.x)
    minY := jsMin acc.minY (.fin pos.y)
    maxY := jsMax acc.maxY (.fin pos.y) }

def calculateGlobalBounds (positions : List Vec3) : GlobalBounds :=
  positions.foldl globalBoundsStep
    { minX := .posInf, maxX := .negInf, minY := .posInf, maxY := .negInf }

/-- The x/y/z bounding box of `calculateBounds` in the second `Minimap`
variant (`Minimap.tsx` lines 518-537). -/
structure Bounds3 where
  minX : JSNum
  maxX : JSNum
  minY : JSNum
  maxY : JSNum
  minZ : JSNum
  maxZ : JSNum
deriving DecidableEq, Repr

/-- `calculateBounds` from `Minimap.tsx` (lines 518-537): like
`calculateGlobalBounds` but also tracking z. -/
def calculateBounds (positions : List Vec3) : Bounds3 :=
  positions.foldl
    (fun acc pos =>
      { minX := jsMin acc.minX (.fin pos.x)
        maxX := jsMax acc.maxX (.fin pos.x)
        minY := jsMin acc.minY (.fin pos.y)
        maxY := jsMax acc.maxY (.fin pos.y)
        minZ := jsMin acc.minZ (.fin pos.z)
        maxZ := jsMax acc.maxZ (.fin pos.z) })
    { minX := .posInf, maxX := .negInf, minY := .posInf, maxY := .negInf
      minZ := .posInf, maxZ := .negInf }

/-- `projectToMinimap` from `Minimap.tsx` (lines 603-622): bounds are
recomputed from the node positions, a single `scale = Math.min(scaleX,
scaleY)` is applied to both axes, and y is flipped
(`height - (padding + (y - minY) * scale)`).  `width`/`height` are the
measured canvas size; `padding = 20` is hardcoded. -/
def projectToMinimap (nodePositions : List Vec3) (pos : Vec3)
    (width height : ℚ) : JSNum × JSNum :=
  let b := calculateBounds nodePositions
  let padding : ℚ := 20
  let availableWidth := width - 2 * padding
  let availableHeight := height - 2 * padding
  let scaleX := jdiv (.fin availableWidth) (jsub b.maxX b.minX)
  let scaleY := jdiv (.fin availableHeight) (jsub b.maxY b.minY)
  let scale := jsMin scaleX scaleY
  (jadd (.fin padding) (jmul (jsub (.fin pos.x) b.minX) scale),
   jsub (.fin height) (jadd (.fin padding) (jmul (jsub (.fin pos.y) b.minY) scale)))

/-- `projectToCanvas` from `Minimap.tsx` (lines 392-402): each axis is
normalised by its own extent; note that the y coordinate is
`padding + ((y - minY)/(maxY - minY)) * height` with NO flip, although the
adjacent comment in the source says the y coordinate is inverted. -/
def projectToCanvas (nodePositions : List Vec3) (canvasW canvasH : ℚ)
    (pos : Vec3) : JSNum × JSNum :=
  let b := calculateGlobalBounds nodePositions
  let padding : ℚ := 20
  let width := canvasW - 2 * padding
  let height := canvasH - 2 * padding
  (jadd (.fin padding) (jmul (jdiv (jsub (.fin pos.x) b.minX) (jsub b.maxX b.minX)) (.fin width)),
   jadd (.fin padding) (jmul (jdiv (jsub (.fin pos.y) b.minY) (jsub b.maxY b.minY)) (.fin height)))

/-- The world-space point computed by `handleMinimapClick` in `Minimap.tsx`
(lines 405-445) from a click at canvas coordinates `(x, y)`:
`sceneX = ((x - padding)/width) * (maxX - minX) + minX` and
`sceneY = (1 - (y - padding)/height) * (maxY - minY) + minY` — the inverse
of an x-normalised, Y-FLIPPED projection. -/
def minimapClickScenePoint (nodePositions : List Vec3) (clientW clientH : ℚ)
    (x y : JSNum) : JSNum × JSNum :=
  let b := calculateGlobalBounds nodePositions
  let padding : ℚ := 20
  let width := clientW - 2 * padding
  let height := clientH - 2 * padding
  (jadd (jmul (jdiv (jsub x (.fin padding)) (.fin width)) (jsub b.maxX b.minX)) b.minX,
   jadd (jmul (jsub (.fin 1) (jdiv (jsub y (.fin padding)) (.fin height))) (jsub b.maxY b.minY)) b.minY)

/-- The `project` closure of `render2D` in `minimap/2d.tsx` (lines 39-48):
per-axis normalisation (`(x - minX)/(maxX - minX) * width`), with the y
coordinate flipped via `canvas.height - (padding + ...)`. -/
def project2dPoint (nodePositions : List Vec3) (canvasW canvasH : ℚ)
    (pos : Vec3) : JSNum × JSNum :=
  let b := calculateGlobalBounds nodePositions
  let padding : ℚ := 20
  let width := canvasW - 2 * padding
  let height := canvasH - 2 * padding
  (jadd (.fin padding) (jmul (jdiv (jsub (.fin pos.x) b.minX) (jsub b.maxX b.minX)) (.fin width)),
   jsub (.fin canvasH) (jadd (.fin padding) (jmul (jdiv (jsub (.fin pos.y) b.minY) (jsub b.maxY b.minY)) (.fin height))))

/-! ## Inertial decay loop -/

/-- The `applyInertia` recursion of the drag components (`StellarNode`
`handlePointerUp` and `ConstellationEdge` in the unnamed source, e.g.
`part_001` lines 387-411 and 508-528), run to completion: each step checks
`|vx| < 0.01 ∧ |vy| < 0.01` (stop, no emission), otherwise multiplies both
components by the damping factor `0.95`, emits one callback, and re-schedules
itself only while `|vx| > 0.01 ∨ |vy| > 0.01`.  The extra `fuel` argument
caps the recursion depth so the model is total: `some k` means the loop
stopped after emitting `k` callbacks, `none` means the fuel ran out first. -/
def applyInertiaRun : ℕ → ℚ × ℚ → Option ℕ
  | 0, _ => none
  | fuel + 1, (vx, vy) =>
      if |vx| < 1/100 ∧ |vy| < 1/100 then some 0
      else
        let vx' := vx * (19/20)
        let vy' := vy * (19/20)
        if 1/100 < |vx'| ∨ 1/100 < |vy'| then
          (applyInertiaRun fuel (vx', vy')).map (· + 1)
        else some 1

/-- `handleReset` (node-position part) from `index.tsx` (line 267): replaces
the state with `calculateNodePositions(nodes)`, ignoring the current
positions. -/
def handleResetNodePositions (nodes : List FlowNode) (_current : NodeMap) : NodeMap :=
  calculateNodePositions nodes

/-! ## Claims about the position store -/

/-- C1: for every position map containing `id`, `handleNodeDrag` in locked
(group) mode computes `delta = newPos - oldPos` and adds it to every node's
position, so the dragged node ends exactly at `newPos` and every other node
is translated by the same `delta`. -/
theorem C1_group_locked_drag_is_rigid_translation (prev : NodeMap)
    (nodeId : String) (newPos oldPos : Vec3)
    (h : mapGet prev nodeId = some oldPos) :
    mapGet (handleNodeDrag true prev nodeId newPos) nodeId = some newPos ∧
    ∀ id p, mapGet prev id = some p →
      mapGet (handleNodeDrag true prev nodeId newPos) id
        = some (vadd p (vsub newPos oldPos)) := by
  have hdrag : handleNodeDrag true prev nodeId newPos
      = prev.map (fun e => (e.1, vadd e.2 (vsub newPos oldPos))) := by
    simp [handleNodeDrag, h]
  constructor
  · rw [hdrag, mapGet_map_vadd, h]
    simp [vadd_vsub_cancel]
  · intro id p hp
    rw [hdrag, mapGet_map_vadd, hp]
    rfl

/-- C1 witness: group-locked drag of `A` to `(1,1,0)` with
`A=(0,0,0), B=(1,0,0)` gives `A=(1,1,0), B=(2,1,0)`. -/
theorem C1_witness :
    mapGet (handleNodeDrag true [("A", ⟨0,0,0⟩), ("B", ⟨1,0,0⟩)] "A" ⟨1,1,0⟩) "A"
      = some ⟨1,1,0⟩ ∧
    mapGet (handleNodeDrag true [("A", ⟨0,0,0⟩), ("B", ⟨1,0,0⟩)] "A" ⟨1,1,0⟩) "B"
      = some ⟨2,1,0⟩ := by
  have h := C1_group_locked_drag_is_rigid_translation
    [("A", ⟨0,0,0⟩), ("B", ⟨1,0,0⟩)] "A" ⟨1,1,0⟩ ⟨0,0,0⟩ (by simp [mapGet])
  refine ⟨h.1, ?_⟩
  have h2 := h.2 "B" ⟨1,0,0⟩ (by simp [mapGet])
  rw [h2]
  norm_num [vadd, vsub]

/-- C2: after a group-locked `handleNodeDrag` on a map containing the dragged
id, the difference vector between any two present nodes is unchanged. -/
theorem C2_group_locked_preserves_relative_layout (prev : NodeMap)
    (nodeId : String) (newPos oldPos : Vec3)
    (h : mapGet prev nodeId = some oldPos)
    (a b : String) (pa pb pa' pb' : Vec3)
    (ha : mapGet prev a = some pa) (hb : mapGet prev b = some pb)
    (ha' : mapGet (handleNodeDrag true prev nodeId newPos) a = some pa')
    (hb' : mapGet (handleNodeDrag true prev nodeId newPos) b = some pb') :
    vsub pa' pb' = vsub pa pb := by
  have hdrag : handleNodeDrag true prev nodeId newPos
      = prev.map (fun e => (e.1, vadd e.2 (vsub newPos oldPos))) := by
    simp [handleNodeDrag, h]
  rw [hdrag, mapGet_map_vadd, ha] at ha'
  rw [hdrag, mapGet_map_vadd, hb] at hb'
  simp at ha' hb'
  rw [← ha', ← hb', vsub_vadd_vadd]

/-- C2 witness: on `A=(0,0,0), B=(1,0,0)`, after the group-locked drag of `A`
to `(1,1,0)` the positions are `(1,1,0)` and `(2,1,0)`, and the difference
vector `A - B` is unchanged. -/
theorem C2_witness :
    mapGet (handleNodeDrag true [("A", ⟨0,0,0⟩), ("B", ⟨1,0,0⟩)] "A" ⟨1,1,0⟩) "A"
      = some ⟨1,1,0⟩ ∧
    mapGet (handleNodeDrag true [("A", ⟨0,0,0⟩), ("B", ⟨1,0,0⟩)] "A" ⟨1,1,0⟩) "B"
      = some ⟨2,1,0⟩ ∧
    vsub ⟨1,1,0⟩ ⟨2,1,0⟩ = vsub ⟨0,0,0⟩ ⟨1,0,0⟩ := by
  have he1 : mapGet (handleNodeDrag true [("A", ⟨0,0,0⟩), ("B", ⟨1,0,0⟩)] "A" ⟨1,1,0⟩) "A"
      = some ⟨1,1,0⟩ := by
    simp [handleNodeDrag, mapGet, vadd, vsub]
  have he2 : mapGet (handleNodeDrag true [("A", ⟨0,0,0⟩), ("B", ⟨1,0,0⟩)] "A" ⟨1,1,0⟩) "B"
      = some ⟨2,1,0⟩ := by
    simp [handleNodeDrag, mapGet, vadd, vsub]
    norm_num
  refine ⟨he1, he2, ?_⟩
  exact C2_group_locked_preserves_relative_layout
    [("A", ⟨0,0,0⟩), ("B", ⟨1,0,0⟩)] "A" ⟨1,1,0⟩ ⟨0,0,0⟩ (by simp [mapGet])
    "A" "B" ⟨0,0,0⟩ ⟨1,0,0⟩ ⟨1,1,0⟩ ⟨2,1,0⟩ (by simp [mapGet]) (by simp [mapGet]) he1 he2

/-- C5 counterexample: with `groupLocked = false`, dragging an id that is not
in the map does NOT leave the map unchanged — the entry is inserted. -/
theorem C5_counterexample :
    handleNodeDrag false [("A", ⟨0,0,0⟩)] "B" ⟨1,1,0⟩ ≠ [("A", ⟨0,0,0⟩)] := by
  simp [handleNodeDrag, mapSet]

/-- C5 (amended): in `PositionManager.handleNodeDrag`, a missing id is a
silent no-op only in group-locked mode; with `groupLocked = false` the
missing id is inserted at `newPos` (`Map.set` appends the entry). -/
theorem C5_amended_noop_only_when_locked (prev : NodeMap) (id : String)
    (v : Vec3) (h : mapGet prev id = none) :
    handleNodeDrag true prev id v = prev ∧
    handleNodeDrag false prev id v = prev ++ [(id, v)] := by
  constructor
  · simp [handleNodeDrag, h]
  · simp [handleNodeDrag, mapSet_of_not_mem prev id v h]

/-- C5 witness for the amended claim, at `prev = [A ↦ (0,0,0)]`, `id = "B"`. -/
theorem C5_amended_witness :
    handleNodeDrag true [("A", ⟨0,0,0⟩)] "B" ⟨1,1,0⟩ = [("A", ⟨0,0,0⟩)] ∧
    handleNodeDrag false [("A", ⟨0,0,0⟩)] "B" ⟨1,1,0⟩
      = [("A", ⟨0,0,0⟩), ("B", ⟨1,1,0⟩)] := by
  have h := C5_amended_noop_only_when_locked [("A", ⟨0,0,0⟩)] "B" ⟨1,1,0⟩
    (by simp [mapGet])
  exact ⟨h.1, by simpa using h.2⟩

/-- C6: reset is idempotent, discards any drag-induced state, and matches the
initialization formula — both for `PositionManager.resetPositions` against
its `useState` initializer and for the `index.tsx` reset against
`calculateNodePositions`. -/
theorem C6_reset_idempotent_and_matches_init (nodes : List FlowNode)
    (dragState dragState' : NodeMap) :
    resetPositions nodes (resetPositions nodes dragState)
      = resetPositions nodes dragState ∧
    resetPositions nodes dragState = initialNodePositions nodes ∧
    handleResetNodePositions nodes (handleResetNodePositions nodes dragState')
      = handleResetNodePositions nodes dragState' ∧
    handleResetNodePositions nodes dragState' = calculateNodePositions nodes :=
  ⟨rfl, rfl, rfl, rfl⟩

/-- C10: with group-lock off, `handleEdgeDrag` issues no state update at all:
the position map is unchanged for every delta. -/
theorem C10_edge_drag_noop_when_unlocked (prev : NodeMap) (delta : Vec3) :
    handleEdgeDrag false prev delta = prev := by
  simp [handleEdgeDrag]

/-! ## Claims about the bounding box -/

theorem globalBoundsStep_fin (a b c d : ℚ) (p : Vec3) :
    globalBoundsStep ⟨.fin a, .fin b, .fin c, .fin d⟩ p
      = ⟨.fin (min a p.x), .fin (max b p.x), .fin (min c p.y), .fin (max d p.y)⟩ := rfl

theorem globalBounds_foldl_fin (l : List Vec3) :
    ∀ a b c d : ℚ,
      ∃ a' b' c' d' : ℚ,
        List.foldl globalBoundsStep ⟨.fin a, .fin b, .fin c, .fin d⟩ l
          = ⟨.fin a', .fin b', .fin c', .fin d'⟩ ∧
        a' ≤ a ∧ b ≤ b' ∧ c' ≤ c ∧ d ≤ d' ∧
        ∀ p ∈ l, a' ≤ p.x ∧ p.x ≤ b' ∧ c' ≤ p.y ∧ p.y ≤ d' := by
  induction l with
  | nil =>
      intro a b c d
      exact ⟨a, b, c, d, rfl, le_refl _, le_refl _, le_refl _, le_refl _, by simp⟩
  | cons p l ih =>
      intro a b c d
      obtain ⟨a', b', c', d', heq, ha, hb, hc, hd, hmem⟩ :=
        ih (min a p.x) (max b p.x) (min c p.y) (max d p.y)
      refine ⟨a', b', c', d', ?_, ?_, ?_, ?_, ?_, ?_⟩
      · rw [List.foldl_cons, globalBoundsStep_fin]
        exact heq
      · exact ha.trans (min_le_left _ _)
      · exact (le_max_left _ _).trans hb
      · exact hc.trans (min_le_left _ _)
      · exact (le_max_left _ _).trans hd
      · intro q hq
        rcases List.mem_cons.mp hq with rfl | hq
        · exact ⟨ha.trans (min_le_right _ _), (le_max_right _ _).trans hb,
                 hc.trans (min_le_right _ _), (le_max_right _ _).trans hd⟩
        · exact hmem q hq

/-- C9: for every non-empty list of positions, `calculateGlobalBounds`
returns a finite box with `minX ≤ x ≤ maxX` and `minY ≤ y ≤ maxY` for every
position (z is ignored). -/
theorem C9_bounds_contain_all_positions (positions : List Vec3)
    (h : positions ≠ []) :
    ∃ a b c d : ℚ,
      calculateGlobalBounds positions = ⟨.fin a, .fin b, .fin c, .fin d⟩ ∧
      ∀ p ∈ positions, a ≤ p.x ∧ p.x ≤ b ∧ c ≤ p.y ∧ p.y ≤ d := by
  match positions, h with
  | p :: l, _ =>
      obtain ⟨a', b', c', d', heq, ha, hb, hc, hd, hmem⟩ :=
        globalBounds_foldl_fin l p.x p.x p.y p.y
      refine ⟨a', b', c', d', ?_, ?_⟩
      · unfold calculateGlobalBounds
        rw [List.foldl_cons]
        have hstep : globalBoundsStep ⟨.posInf, .negInf, .posInf, .negInf⟩ p
            = ⟨.fin p.x, .fin p.x, .fin p.y, .fin p.y⟩ := rfl
        rw [hstep]
        exact heq
      · intro q hq
        rcases List.mem_cons.mp hq with rfl | hq
        · exact ⟨ha, hb, hc, hd⟩
        · exact hmem q hq

/-- C9 witness: the bounding box of `(0,0,0), (2,0,0), (0,2,0)` is finite and
contains every position. -/
theorem C9_witness :
    ∃ a b c d : ℚ,
      calculateGlobalBounds [⟨0,0,0⟩, ⟨2,0,0⟩, ⟨0,2,0⟩]
        = ⟨.fin a, .fin b, .fin c, .fin d⟩ ∧
      ∀ p ∈ [(⟨0,0,0⟩ : Vec3), ⟨2,0,0⟩, ⟨0,2,0⟩],
        a ≤ p.x ∧ p.x ≤ b ∧ c ≤ p.y ∧ p.y ≤ d :=
  C9_bounds_contain_all_positions _ (by simp)

/-! ## Claims about the minimap projection -/

theorem jadd_fin (a b : ℚ) : jadd (.fin a) (.fin b) = .fin (a + b) := rfl

theorem jsub_fin (a b : ℚ) : jsub (.fin a) (.fin b) = .fin (a - b) := rfl

theorem jmul_fin (a b : ℚ) : jmul (.fin a) (.fin b) = .fin (a * b) := rfl

theorem jsMin_fin (a b : ℚ) : jsMin (.fin a) (.fin b) = .fin (min a b) := rfl

theorem jdiv_fin_of_ne (a b : ℚ) (hb : b ≠ 0) :
    jdiv (.fin a) (.fin b) = .fin (a / b) := by
  simp [jdiv, hb]

/-- The projection formula asserted by the spec for `project`: one uniform
scale `min((canvasW - 2·padding)/(maxX - minX), (canvasH - 2·padding)/(maxY -
minY))` for both axes. -/
def specUniformScale (mnx mxx mny mxy w h : ℚ) : ℚ :=
  min ((w - 2 * 20) / (mxx - mnx)) ((h - 2 * 20) / (mxy - mny))

/-- The spec's x projection: `padding + (x - minX) * scale`. -/
def specProjectX (mnx mxx mny mxy w h px : ℚ) : ℚ :=
  20 + (px - mnx) * specUniformScale mnx mxx mny mxy w h

/-- The spec's y projection, flipped: `canvasH - (padding + (y - minY) *
scale)`. -/
def specProjectY (mnx mxx mny mxy w h py : ℚ) : ℚ :=
  h - (20 + (py - mny) * specUniformScale mnx mxx mny mxy w h)

/-- C4: for non-degenerate bounds, `projectToMinimap` equals the spec's
uniform-min-scale formula with flipped y; for points inside the bounds the
result lies in `[padding, size - padding]` on both axes; and on the scenario
(nodes `(0,0,0), (2,0,0), (0,2,0)`, 200×200 canvas, padding 20) the node at
`(2,0,0)` projects to `(180, 180)` — also under the per-axis `project` of
`minimap/2d.tsx`, which agrees on this configuration. -/
theorem C4_projection_uniform_scale (ps : List Vec3) (p : Vec3) (w h : ℚ)
    (mnx mxx mny mxy : ℚ) (bz1 bz2 : JSNum)
    (hb : calculateBounds ps = ⟨.fin mnx, .fin mxx, .fin mny, .fin mxy, bz1, bz2⟩)
    (hx : mnx < mxx) (hy : mny < mxy) (hw : 40 ≤ w) (hh : 40 ≤ h) :
    (projectToMinimap ps p w h
      = (.fin (specProjectX mnx mxx mny mxy w h p.x),
         .fin (specProjectY mnx mxx mny mxy w h p.y)) ∧
    (mnx ≤ p.x → p.x ≤ mxx → mny ≤ p.y → p.y ≤ mxy →
      20 ≤ specProjectX mnx mxx mny mxy w h p.x ∧
      specProjectX mnx mxx mny mxy w h p.x ≤ w - 20 ∧
      20 ≤ specProjectY mnx mxx mny mxy w h p.y ∧
      specProjectY mnx mxx mny mxy w h p.y ≤ h - 20)) ∧
    projectToMinimap [⟨0,0,0⟩, ⟨2,0,0⟩, ⟨0,2,0⟩] ⟨2,0,0⟩ 200 200
      = (.fin 180, .fin 180) ∧
    project2dPoint [⟨0,0,0⟩, ⟨2,0,0⟩, ⟨0,2,0⟩] 200 200 ⟨2,0,0⟩
      = (.fin 180, .fin 180) := by
  have hx0 : mxx - mnx ≠ 0 := sub_ne_zero.mpr hx.ne'
  have hy0 : mxy - mny ≠ 0 := sub_ne_zero.mpr hy.ne'
  refine ⟨⟨?_, ?_⟩, ?_, ?_⟩
  · show projectToMinimap ps p w h = _
    rw [projectToMinimap, hb]
    simp only [jsub_fin, jdiv_fin_of_ne _ _ hx0, jdiv_fin_of_ne _ _ hy0,
      jsMin_fin, jmul_fin, jadd_fin]
    rfl
  · intro h1 h2 h3 h4
    have hsX : specUniformScale mnx mxx mny mxy w h ≤ (w - 2 * 20) / (mxx - mnx) :=
      min_le_left _ _
    have hsY : specUniformScale mnx mxx mny mxy w h ≤ (h - 2 * 20) / (mxy - mny) :=
      min_le_right _ _
    have hs0 : 0 ≤ specUniformScale mnx mxx mny mxy w h :=
      le_min (div_nonneg (by linarith) (by linarith)) (div_nonneg (by linarith) (by linarith))
    have hpx1 : 0 ≤ (p.x - mnx) * specUniformScale mnx mxx mny mxy w h :=
      mul_nonneg (by linarith) hs0
    have hpx2 : (p.x - mnx) * specUniformScale mnx mxx mny mxy w h ≤ w - 2 * 20 := by
      calc (p.x - mnx) * specUniformScale mnx mxx mny mxy w h
          ≤ (mxx - mnx) * ((w - 2 * 20) / (mxx - mnx)) :=
            mul_le_mul (by linarith) hsX hs0 (by linarith)
        _ = w - 2 * 20 := by field_simp
    have hpy1 : 0 ≤ (p.y - mny) * specUniformScale mnx mxx mny mxy w h :=
      mul_nonneg (by linarith) hs0
    have hpy2 : (p.y - mny) * specUniformScale mnx mxx mny mxy w h ≤ h - 2 * 20 := by
      calc (p.y - mny) * specUniformScale mnx mxx mny mxy w h
          ≤ (mxy - mny) * ((h - 2 * 20) / (mxy - mny)) :=
            mul_le_mul (by linarith) hsY hs0 (by linarith)
        _ = h - 2 * 20 := by field_simp
    refine ⟨?_, ?_, ?_, ?_⟩ <;>
      simp only [specProjectX, specProjectY] <;> linarith
  · norm_num [projectToMinimap, calculateBounds, jsMin, jsMax, jadd, jsub, jmul, jdiv]
  · norm_num [project2dPoint, calculateGlobalBounds, globalBoundsStep,
      jsMin, jsMax, jadd, jsub, jmul, jdiv]

/-- C4 witness: the scenario instantiates the general theorem — bounds
`[0,2]×[0,2]`, scale `min(80,80) = 80`, and `(2,0,0) ↦ (180, 180)`. -/
theorem C4_witness :
    projectToMinimap [⟨0,0,0⟩, ⟨2,0,0⟩, ⟨0,2,0⟩] ⟨2,0,0⟩ 200 200
      = (.fin (specProjectX 0 2 0 2 200 200 2),
         .fin (specProjectY 0 2 0 2 200 200 0)) ∧
    specProjectX 0 2 0 2 200 200 2 = 180 ∧
    specProjectY 0 2 0 2 200 200 0 = 180 := by
  have h := C4_projection_uniform_scale [⟨0,0,0⟩, ⟨2,0,0⟩, ⟨0,2,0⟩] ⟨2,0,0⟩
    200 200 0 2 0 2 (.fin 0) (.fin 0)
    (by norm_num [calculateBounds, jsMin, jsMax])
    (by norm_num) (by norm_num) (by norm_num) (by norm_num)
  refine ⟨h.1.1, ?_, ?_⟩ <;>
    norm_num [specProjectX, specProjectY, specUniformScale]

theorem jdiv_fin_zero_of_pos (a : ℚ) (ha : 0 < a) :
    jdiv (.fin a) (.fin 0) = .posInf := by
  simp [jdiv, ha]

theorem jmul_fin_zero_posInf : jmul (.fin 0) .posInf = .nan := by
  norm_num [jmul]

/-- C8 counterexample: with all positions coincident (both extents zero) the
projection output is `NaN`, so the claimed NaN/Infinity guard does not exist. -/
theorem C8_counterexample :
    (projectToMinimap [⟨1,1,0⟩] ⟨1,1,0⟩ 192 144).1 = JSNum.nan := by
  norm_num [projectToMinimap, calculateBounds, jsMin, jsMax, jadd, jsub, jmul, jdiv]

/-- C8 (amended): the projection code has NO minimum-extent guard.  When the
bounding box is degenerate on both axes (all positions coincident),
`projectToMinimap` divides the available extent by zero (scale `Infinity`)
and multiplies it by zero, producing `NaN` for both output coordinates; the
per-axis `project` of `minimap/2d.tsx` likewise produces a `NaN` x coordinate
already when only the x extent is zero. -/
theorem C8_amended_degenerate_bounds_give_nan (q : Vec3) (w h : ℚ)
    (hw : 40 < w) (hh : 40 < h) :
    projectToMinimap [q] q w h = (JSNum.nan, JSNum.nan) ∧
    (project2dPoint [q] w h q).1 = JSNum.nan := by
  have hbounds : calculateBounds [q]
      = ⟨.fin q.x, .fin q.x, .fin q.y, .fin q.y, .fin q.z, .fin q.z⟩ := rfl
  have hgbounds : calculateGlobalBounds [q]
      = ⟨.fin q.x, .fin q.x, .fin q.y, .fin q.y⟩ := rfl
  constructor
  · rw [projectToMinimap, hbounds]
    simp only [jsub_fin, sub_self]
    rw [jdiv_fin_zero_of_pos _ (by linarith), jdiv_fin_zero_of_pos _ (by linarith)]
    simp [jsMin, jmul_fin_zero_posInf, jadd, jsub]
  · rw [project2dPoint, hgbounds]
    simp only [jsub_fin, sub_self]
    norm_num [jdiv, jmul, jadd, jsub]

/-- C8 witness for the amended claim: a concrete coincident layout on the
192×144 canvas. -/
theorem C8_amended_witness :
    projectToMinimap [⟨5,7,3⟩] ⟨5,7,3⟩ 192 144 = (JSNum.nan, JSNum.nan) ∧
    (project2dPoint [⟨5,7,3⟩] 192 144 ⟨5,7,3⟩).1 = JSNum.nan :=
  C8_amended_degenerate_bounds_give_nan ⟨5,7,3⟩ 192 144 (by norm_num) (by norm_num)

/-- C3: evaluating the actual round trip of the cited pair — `projectToCanvas`
(which does NOT flip y, contradicting its own comment) followed by the
`handleMinimapClick` inverse (which assumes a flipped y) — at the point
`(1, 1/2)` strictly inside bounds `[0,2]×[0,2]` on the 192×144 minimap:
the x coordinate round-trips to `1`, but the y coordinate comes back as
`minY + maxY - y = 3/2 ≠ 1/2`. -/
theorem C3_roundtrip_reflects_y :
    projectToCanvas [⟨0,0,0⟩, ⟨2,2,0⟩] 192 144 ⟨1, 1/2, 0⟩
      = (.fin 96, .fin 46) ∧
    minimapClickScenePoint [⟨0,0,0⟩, ⟨2,2,0⟩] 192 144 (.fin 96) (.fin 46)
      = (.fin 1, .fin (3/2)) ∧
    (3 : ℚ)/2 ≠ 1/2 := by
  refine ⟨?_, ?_, by norm_num⟩ <;>
    norm_num [projectToCanvas, minimapClickScenePoint, calculateGlobalBounds,
      globalBoundsStep, jsMin, jsMax, jadd, jsub, jmul, jdiv]

/-! ## Inertia termination -/

theorem applyInertiaRun_succ (fuel : ℕ) (vx vy : ℚ) :
    applyInertiaRun (fuel + 1) (vx, vy) =
      if |vx| < 1/100 ∧ |vy| < 1/100 then some 0
      else if 1/100 < |vx * (19/20)| ∨ 1/100 < |vy * (19/20)| then
        (applyInertiaRun fuel (vx * (19/20), vy * (19/20))).map (· + 1)
      else some 1 := rfl

theorem applyInertiaRun_total (n : ℕ) :
    ∀ vx vy : ℚ, |vx| * (19/20) ^ n ≤ 1/100 → |vy| * (19/20) ^ n ≤ 1/100 →
      ∃ k, k ≤ n + 1 ∧ applyInertiaRun (n + 1) (vx, vy) = some k := by
  induction n with
  | zero =>
      intro vx vy hx hy
      rw [pow_zero, mul_one] at hx hy
      by_cases hstop : |vx| < 1/100 ∧ |vy| < 1/100
      · exact ⟨0, Nat.zero_le _, by rw [applyInertiaRun_succ, if_pos hstop]⟩
      · have hx' : ¬ (1/100 < |vx * (19/20)|) := by
          rw [abs_mul, abs_of_pos (by norm_num : (0:ℚ) < 19/20)]
          nlinarith [abs_nonneg vx]
        have hy' : ¬ (1/100 < |vy * (19/20)|) := by
          rw [abs_mul, abs_of_pos (by norm_num : (0:ℚ) < 19/20)]
          nlinarith [abs_nonneg vy]
        refine ⟨1, le_refl 1, ?_⟩
        rw [applyInertiaRun_succ, if_neg hstop, if_neg (not_or.mpr ⟨hx', hy'⟩)]
  | succ n ih =>
      intro vx vy hx hy
      by_cases hstop : |vx| < 1/100 ∧ |vy| < 1/100
      · exact ⟨0, Nat.zero_le _, by rw [applyInertiaRun_succ, if_pos hstop]⟩
      · have hx' : |vx * (19/20)| * (19/20) ^ n ≤ 1/100 := by
          rw [abs_mul, abs_of_pos (by norm_num : (0:ℚ) < 19/20)]
          calc |vx| * (19/20) * (19/20) ^ n = |vx| * (19/20) ^ (n + 1) := by ring
            _ ≤ 1/100 := hx
        have hy' : |vy * (19/20)| * (19/20) ^ n ≤ 1/100 := by
          rw [abs_mul, abs_of_pos (by norm_num : (0:ℚ) < 19/20)]
          calc |vy| * (19/20) * (19/20) ^ n = |vy| * (19/20) ^ (n + 1) := by ring
            _ ≤ 1/100 := hy
        obtain ⟨k, hk, hrun⟩ := ih (vx * (19/20)) (vy * (19/20)) hx' hy'
        by_cases hcont : 1/100 < |vx * (19/20)| ∨ 1/100 < |vy * (19/20)|
        · refine ⟨k + 1, by omega, ?_⟩
          rw [applyInertiaRun_succ, if_neg hstop, if_pos hcont, hrun]
          rfl
        · exact ⟨1, by omega, by
            rw [applyInertiaRun_succ, if_neg hstop, if_neg hcont]⟩

/-- C7: the inertial decay loop terminates for every starting velocity — with
the damping factor `0.95` of the code, some finite fuel makes the run finish
with a step count bounded by that fuel — and from velocity `(50, 0)` it
finishes within 170 emitted steps. -/
theorem C7_applyInertia_terminates :
    (∀ vx vy : ℚ, ∃ fuel k : ℕ, k ≤ fuel ∧ applyInertiaRun fuel (vx, vy) = some k) ∧
    (∃ k : ℕ, k ≤ 170 ∧ applyInertiaRun 170 (50, 0) = some k) := by
  constructor
  · intro vx vy
    set M := max |vx| |vy| with hM
    have hM0 : 0 ≤ M := le_trans (abs_nonneg vx) (le_max_left _ _)
    have hM1 : (0:ℚ) < M + 1 := by linarith
    obtain ⟨n, hn⟩ := exists_pow_lt_of_lt_one
      (div_pos (by norm_num : (0:ℚ) < 1/100) hM1) (by norm_num : (19:ℚ)/20 < 1)
    have hpow : (0:ℚ) ≤ (19/20) ^ n := pow_nonneg (by norm_num) n
    have hbx : |vx| * (19/20) ^ n ≤ 1/100 := by
      calc |vx| * (19/20) ^ n ≤ (M + 1) * (19/20) ^ n := by
            have : |vx| ≤ M + 1 := le_trans (le_max_left _ |vy|) (by linarith)
            exact mul_le_mul_of_nonneg_right this hpow
        _ ≤ (M + 1) * (1/100 / (M + 1)) := by
            exact mul_le_mul_of_nonneg_left hn.le (by linarith)
        _ = 1/100 := by
            field_simp
            ring
    have hby : |vy| * (19/20) ^ n ≤ 1/100 := by
      calc |vy| * (19/20) ^ n ≤ (M + 1) * (19/20) ^ n := by
            have : |vy| ≤ M + 1 := le_trans (le_max_right |vx| _) (by linarith)
            exact mul_le_mul_of_nonneg_right this hpow
        _ ≤ (M + 1) * (1/100 / (M + 1)) := by
            exact mul_le_mul_of_nonneg_left hn.le (by linarith)
        _ = 1/100 := by
            field_simp
            ring
    obtain ⟨k, hk, hrun⟩ := applyInertiaRun_total n vx vy hbx hby
    exact ⟨n + 1, k, hk, hrun⟩
  · have h50 : |(50:ℚ)| * (19/20) ^ 169 ≤ 1/100 := by
      rw [abs_of_pos (by norm_num : (0:ℚ) < 50)]
      norm_num
    have h0 : |(0:ℚ)| * (19/20) ^ 169 ≤ 1/100 := by
      simp
    obtain ⟨k, hk, hrun⟩ := applyInertiaRun_total 169 50 0 h50 h0
    exact ⟨k, hk, hrun⟩
